import Mathlib

/-!
# Verification of the infection-estimation core of `dash_covid`

This file embeds the numerical core of `parse_data.py` — the survival
probability `prob_still_infected` built on the regularized lower incomplete
gamma function (`scipy.special.gammainc`), the convolution estimator
`compute_I` (built on `np.dot` over list slices, with numpy's length-mismatch
failure modelled by `Option`), and the reproduction-rate column
`R = (new_cases.shift(-1) / I) * inf_time_mean` (with pandas/IEEE special
values modelled by an explicit float type `PFloat`) — and proves the
spec's properties about them.
-/

open Set

noncomputable section

namespace DashCovid

open ProbabilityTheory in
/-- `scipy.special.gammainc k x`: the regularized lower incomplete gamma
function `P(k, x)`, embedded as the CDF at `x` of the Gamma distribution
with shape `k` and rate `1`. -/
def gammainc (k x : ℝ) : ℝ := gammaCDFReal k 1 x

/-- `cdf_gamma` from `parse_data.py`: CDF of the gamma distribution with
shape `k` and scale `θ`, i.e. `sp.gammainc(k, x/theta)`. -/
def cdf_gamma (x k θ : ℝ) : ℝ := gammainc k (x / θ)

/-- `prob_still_infected` from `parse_data.py`:
`delta * p_death + (1 - delta) * p_rec` where
`p_rec = 1 - cdf_gamma T k_r theta_r` and `p_death = 1 - cdf_gamma T k_d theta_d`. -/
def prob_still_infected (T kr θr kd θd dl : ℝ) : ℝ :=
  dl * (1 - cdf_gamma T kd θd) + (1 - dl) * (1 - cdf_gamma T kr θr)

/-! ## Module-level constants of `parse_data.py` -/

def mean_r : ℝ := 24.7
def cv_r : ℝ := 0.35
def k_r : ℝ := 1 / cv_r ^ 2
def theta_r : ℝ := mean_r / k_r
def mean_d : ℝ := 18.8
def cv_d : ℝ := 0.45
def k_d : ℝ := 1 / cv_d ^ 2
def theta_d : ℝ := mean_d / k_d
def delta : ℝ := 0.00657
def inf_time_mean : ℝ := mean_r * (1 - delta) + mean_d * delta

/-! ## Basic facts about the gamma CDF embedding -/

open ProbabilityTheory in
lemma cdf_gamma_nonneg (x k θ : ℝ) : 0 ≤ cdf_gamma x k θ :=
  cdf_nonneg (gammaMeasure k 1) (x / θ)

open ProbabilityTheory in
lemma cdf_gamma_le_one (x k θ : ℝ) : cdf_gamma x k θ ≤ 1 :=
  cdf_le_one (gammaMeasure k 1) (x / θ)

open ProbabilityTheory in
lemma cdf_gamma_mono {x y : ℝ} (k θ : ℝ) (hθ : 0 < θ) (hxy : x ≤ y) :
    cdf_gamma x k θ ≤ cdf_gamma y k θ :=
  monotone_cdf (gammaMeasure k 1) (by gcongr)

open ProbabilityTheory MeasureTheory in
lemma gammaCDFReal_rate_one_zero {k : ℝ} (hk : 0 < k) : gammaCDFReal k 1 0 = 0 := by
  rw [gammaCDFReal_eq_lintegral hk one_pos]
  have h1 : ∫⁻ x in Iic (0 : ℝ), gammaPDF k 1 x = ∫⁻ x in Iio (0 : ℝ), gammaPDF k 1 x :=
    (setLIntegral_congr Iio_ae_eq_Iic).symm
  rw [h1, lintegral_gammaPDF_of_nonpos le_rfl]
  simp

open ProbabilityTheory in
lemma cdf_gamma_zero {k : ℝ} (θ : ℝ) (hk : 0 < k) : cdf_gamma 0 k θ = 0 := by
  unfold cdf_gamma gammainc
  rw [zero_div]
  exact gammaCDFReal_rate_one_zero hk

lemma prob_still_infected_nonneg (T kr θr kd θd dl : ℝ)
    (h0 : 0 ≤ dl) (h1 : dl ≤ 1) :
    0 ≤ prob_still_infected T kr θr kd θd dl := by
  have hr := cdf_gamma_le_one T kr θr
  have hd := cdf_gamma_le_one T kd θd
  unfold prob_still_infected
  nlinarith

lemma prob_still_infected_le_one (T kr θr kd θd dl : ℝ)
    (h0 : 0 ≤ dl) (h1 : dl ≤ 1) :
    prob_still_infected T kr θr kd θd dl ≤ 1 := by
  have hr := cdf_gamma_nonneg T kr θr
  have hd := cdf_gamma_nonneg T kd θd
  unfold prob_still_infected
  nlinarith

/-! ## Survival-probability claims -/

/-- C5: for every valid parameter set (`delta ∈ [0,1]`, positive shapes and
scales), `prob_still_infected` at elapsed time `T = 0` returns exactly 1. -/
theorem prob_still_infected_zero_eq_one (kr θr kd θd dl : ℝ)
    (hkr : 0 < kr) (hθr : 0 < θr) (hkd : 0 < kd) (hθd : 0 < θd)
    (hd0 : 0 ≤ dl) (hd1 : dl ≤ 1) :
    prob_still_infected 0 kr θr kd θd dl = 1 := by
  unfold prob_still_infected
  rw [cdf_gamma_zero θr hkr, cdf_gamma_zero θd hkd]
  ring

theorem prob_still_infected_zero_eq_one_witness :
    prob_still_infected 0 k_r theta_r k_d theta_d delta = 1 :=
  prob_still_infected_zero_eq_one k_r theta_r k_d theta_d delta
    (by norm_num [k_r, cv_r]) (by norm_num [theta_r, k_r, cv_r, mean_r])
    (by norm_num [k_d, cv_d]) (by norm_num [theta_d, k_d, cv_d, mean_d])
    (by norm_num [delta]) (by norm_num [delta])

/-- C6: for every valid parameter set and elapsed times `0 ≤ T1 < T2`,
`prob_still_infected T1 ≥ prob_still_infected T2`: survival probability is
monotonically non-increasing in `T`. -/
theorem prob_still_infected_antitone (kr θr kd θd dl T1 T2 : ℝ)
    (hkr : 0 < kr) (hθr : 0 < θr) (hkd : 0 < kd) (hθd : 0 < θd)
    (hd0 : 0 ≤ dl) (hd1 : dl ≤ 1) (hT1 : 0 ≤ T1) (hT : T1 < T2) :
    prob_still_infected T2 kr θr kd θd dl ≤ prob_still_infected T1 kr θr kd θd dl := by
  have hr := cdf_gamma_mono kr θr hθr hT.le
  have hd := cdf_gamma_mono kd θd hθd hT.le
  unfold prob_still_infected
  nlinarith

theorem prob_still_infected_antitone_witness :
    prob_still_infected 1 k_r theta_r k_d theta_d delta ≤
      prob_still_infected 0 k_r theta_r k_d theta_d delta :=
  prob_still_infected_antitone k_r theta_r k_d theta_d delta 0 1
    (by norm_num [k_r, cv_r]) (by norm_num [theta_r, k_r, cv_r, mean_r])
    (by norm_num [k_d, cv_d]) (by norm_num [theta_d, k_d, cv_d, mean_d])
    (by norm_num [delta]) (by norm_num [delta]) le_rfl one_pos

/-! ## A model of pandas / numpy float special values

The `R` column of `parse_data.py` is computed on pandas series of floats, so
division by zero and the end-of-series shift produce IEEE special values:
`NaN` (pandas' missing-value marker) and signed infinities.  Finite values
are modelled exactly by `ℝ`. -/

inductive PFloat : Type
  | val : ℝ → PFloat
  | pinf : PFloat
  | ninf : PFloat
  | nan : PFloat

open PFloat

/-- IEEE-754 division as performed elementwise by pandas/numpy. -/
def pdiv : PFloat → PFloat → PFloat
  | nan, _ => nan
  | _, nan => nan
  | val a, val b =>
      if b = 0 then (if a = 0 then nan else if 0 < a then pinf else ninf)
      else val (a / b)
  | val _, pinf => val 0
  | val _, ninf => val 0
  | pinf, val b => if 0 ≤ b then pinf else ninf
  | ninf, val b => if 0 ≤ b then ninf else pinf
  | pinf, pinf => nan
  | pinf, ninf => nan
  | ninf, pinf => nan
  | ninf, ninf => nan

/-- IEEE-754 multiplication as performed elementwise by pandas/numpy. -/
def pmul : PFloat → PFloat → PFloat
  | nan, _ => nan
  | _, nan => nan
  | val a, val b => val (a * b)
  | pinf, val b => if b = 0 then nan else if 0 < b then pinf else ninf
  | val a, pinf => if a = 0 then nan else if 0 < a then pinf else ninf
  | ninf, val b => if b = 0 then nan else if 0 < b then ninf else pinf
  | val a, ninf => if a = 0 then nan else if 0 < a then ninf else pinf
  | pinf, pinf => pinf
  | pinf, ninf => ninf
  | ninf, pinf => ninf
  | ninf, ninf => pinf

/-- pandas `Series.shift(-1)`: every value moves one index earlier and the
final index receives the missing-value marker `NaN`. -/
def shiftm1 : List PFloat → List PFloat
  | [] => []
  | _ :: rest => rest ++ [nan]

/-- The `R` column computation of `parse_data.py`, line 172:
`df['R'] = (df['new_cases'].shift(-1) / df['I']) * inf_time_mean`. -/
def computeR (ar_cases ar_I : List ℝ) : List PFloat :=
  (List.zipWith pdiv (shiftm1 (ar_cases.map val)) (ar_I.map val)).map
    (fun x => pmul x (val inf_time_mean))

lemma inf_time_mean_pos : 0 < inf_time_mean := by
  norm_num [inf_time_mean, mean_r, mean_d, delta]

@[simp] lemma pdiv_nan_left (x : PFloat) : pdiv nan x = nan := by cases x <;> rfl

@[simp] lemma pdiv_val_val (a b : ℝ) :
    pdiv (val a) (val b) =
      if b = 0 then (if a = 0 then nan else if 0 < a then pinf else ninf)
      else val (a / b) := rfl

@[simp] lemma pmul_nan_left (x : PFloat) : pmul nan x = nan := by cases x <;> rfl

@[simp] lemma pmul_val_val (a b : ℝ) : pmul (val a) (val b) = val (a * b) := rfl

@[simp] lemma pmul_pinf_val (b : ℝ) :
    pmul pinf (val b) = if b = 0 then nan else if 0 < b then pinf else ninf := rfl

@[simp] lemma pmul_ninf_val (b : ℝ) :
    pmul ninf (val b) = if b = 0 then nan else if 0 < b then ninf else pinf := rfl

lemma shiftm1_length (l : List PFloat) : (shiftm1 l).length = l.length := by
  cases l <;> simp [shiftm1]

lemma shiftm1_getD_of_lt (l : List PFloat) (t : ℕ) (d : PFloat) (h : t + 1 < l.length) :
    (shiftm1 l).getD t d = l.getD (t + 1) d := by
  cases l with
  | nil => simp at h
  | cons x rest =>
    have ht : t < rest.length := by simpa using h
    have ht2 : t < (rest ++ [nan]).length := by simp; omega
    simp only [shiftm1, List.getD_cons_succ]
    rw [List.getD_eq_getElem _ _ ht2, List.getElem_append_left ht,
      List.getD_eq_getElem _ _ ht]

lemma shiftm1_getD_last (l : List PFloat) (d : PFloat) (h : l ≠ []) :
    (shiftm1 l).getD (l.length - 1) d = nan := by
  cases l with
  | nil => exact absurd rfl h
  | cons x rest =>
    have ht : rest.length < (rest ++ [nan]).length := by simp
    simp only [shiftm1, List.length_cons, Nat.add_sub_cancel]
    rw [List.getD_eq_getElem _ _ ht, List.getElem_append_right le_rfl]
    simp

lemma computeR_length (ar_cases ar_I : List ℝ) (hlen : ar_I.length = ar_cases.length) :
    (computeR ar_cases ar_I).length = ar_cases.length := by
  simp [computeR, shiftm1_length, hlen]

lemma computeR_getD_eq (ar_cases ar_I : List ℝ) (t : ℕ) (d : PFloat)
    (hlen : ar_I.length = ar_cases.length) (ht : t < ar_cases.length) :
    (computeR ar_cases ar_I).getD t d =
      pmul (pdiv ((shiftm1 (ar_cases.map val)).getD t nan) (val (ar_I.getD t 0)))
        (val inf_time_mean) := by
  have ht' : t < (computeR ar_cases ar_I).length := by
    rw [computeR_length ar_cases ar_I hlen]; exact ht
  have htI : t < ar_I.length := by rw [hlen]; exact ht
  have hts : t < (shiftm1 (ar_cases.map val)).length := by
    rw [shiftm1_length, List.length_map]; exact ht
  rw [List.getD_eq_getElem _ _ ht']
  simp only [computeR, List.getElem_map, List.getElem_zipWith]
  rw [← List.getD_eq_getElem _ nan hts, List.getD_eq_getElem _ _ htI]

/-- C4: for every case series, infected-count series of the same length, and
index `t` with `t + 1 < N`, the reproduction-rate entry `R[t]` is exactly
`(cases[t+1] / I[t]) * inf_time_mean` computed in pandas float arithmetic;
whenever `I[t] ≠ 0` this is the real number `(cases[t+1] / I[t]) * μ`, where
`μ = inf_time_mean = mean_r * (1 - delta) + mean_d * delta`. -/
theorem computeR_formula (ar_cases ar_I : List ℝ) (t : ℕ)
    (hlen : ar_I.length = ar_cases.length) (ht : t + 1 < ar_cases.length) :
    (computeR ar_cases ar_I).getD t nan =
        pmul (pdiv (val (ar_cases.getD (t + 1) 0)) (val (ar_I.getD t 0)))
          (val inf_time_mean) ∧
      (ar_I.getD t 0 ≠ 0 →
        (computeR ar_cases ar_I).getD t nan =
          val ((ar_cases.getD (t + 1) 0 / ar_I.getD t 0) * inf_time_mean)) ∧
      inf_time_mean = mean_r * (1 - delta) + mean_d * delta := by
  have ht0 : t < ar_cases.length := by omega
  have hshift : (shiftm1 (ar_cases.map val)).getD t nan = val (ar_cases.getD (t + 1) 0) := by
    have h1 : t + 1 < (ar_cases.map val).length := by rw [List.length_map]; exact ht
    rw [shiftm1_getD_of_lt _ _ _ h1, List.getD_eq_getElem _ _ h1, List.getElem_map,
      List.getD_eq_getElem _ _ ht]
  have hmain := computeR_getD_eq ar_cases ar_I t nan hlen ht0
  rw [hmain, hshift]
  refine ⟨rfl, fun hI => ?_, rfl⟩
  rw [pdiv_val_val, if_neg hI, pmul_val_val]

theorem computeR_formula_witness :
    (computeR [1, 2] [1, 1]).getD 0 nan =
        pmul (pdiv (val (List.getD [1, 2] (0 + 1) 0)) (val (List.getD [1, 1] 0 0)))
          (val inf_time_mean) ∧
      (List.getD [(1 : ℝ), 1] 0 0 ≠ 0 →
        (computeR [1, 2] [1, 1]).getD 0 nan =
          val ((List.getD [1, 2] (0 + 1) 0 / List.getD [1, 1] 0 0) * inf_time_mean)) ∧
      inf_time_mean = mean_r * (1 - delta) + mean_d * delta :=
  computeR_formula [1, 2] [1, 1] 0 (by norm_num) (by norm_num)

/-- C7 (amended): when `I[t] = 0` at an interior index, the code does not
produce a missing-value marker in general: pandas division by zero yields
`+∞` when `cases[t+1] > 0`, `-∞` when `cases[t+1] < 0`, and `NaN` only in
the `0/0` case; no exception is raised. -/
theorem computeR_at_zero_I (ar_cases ar_I : List ℝ) (t : ℕ)
    (hlen : ar_I.length = ar_cases.length) (ht : t + 1 < ar_cases.length)
    (hI : ar_I.getD t 0 = 0) :
    (computeR ar_cases ar_I).getD t nan =
      if 0 < ar_cases.getD (t + 1) 0 then pinf
      else if ar_cases.getD (t + 1) 0 < 0 then ninf
      else nan := by
  have ht0 : t < ar_cases.length := by omega
  have hshift : (shiftm1 (ar_cases.map val)).getD t nan = val (ar_cases.getD (t + 1) 0) := by
    have h1 : t + 1 < (ar_cases.map val).length := by rw [List.length_map]; exact ht
    rw [shiftm1_getD_of_lt _ _ _ h1, List.getD_eq_getElem _ _ h1, List.getElem_map,
      List.getD_eq_getElem _ _ ht]
  rw [computeR_getD_eq ar_cases ar_I t nan hlen ht0, hshift, hI]
  have hmu := inf_time_mean_pos
  rw [pdiv_val_val, if_pos rfl]
  rcases lt_trichotomy (ar_cases.getD (t + 1) 0) 0 with hc | hc | hc
  · simp only [if_neg (ne_of_lt hc), if_neg (not_lt.mpr hc.le), if_pos hc,
      pmul_ninf_val, if_neg (ne_of_gt hmu), if_pos hmu]
  · rw [hc]
    norm_num
  · simp only [if_neg (ne_of_gt hc), if_pos hc, pmul_pinf_val,
      if_neg (ne_of_gt hmu), if_pos hmu]

theorem computeR_at_zero_I_witness :
    (computeR [0, 5] [0, 2]).getD 0 nan =
      if 0 < List.getD [(0 : ℝ), 5] (0 + 1) 0 then pinf
      else if List.getD [(0 : ℝ), 5] (0 + 1) 0 < 0 then ninf
      else nan :=
  computeR_at_zero_I [0, 5] [0, 2] 0 (by norm_num) (by norm_num) (by norm_num)

lemma computeR_cex_eval : (computeR [0, 5] [0, 1]).getD 0 nan = pinf := by
  have hmu := inf_time_mean_pos
  simp only [computeR, List.map_cons, List.map_nil, shiftm1, List.singleton_append,
    List.zipWith_cons_cons, List.zipWith_nil_right, List.getD_cons_zero]
  rw [pdiv_val_val, if_pos rfl, if_neg (by norm_num : (5 : ℝ) ≠ 0),
    if_pos (by norm_num : (0 : ℝ) < 5), pmul_pinf_val,
    if_neg (ne_of_gt hmu), if_pos hmu]

/-- C7 counterexample: with `cases = [0, 5]` and `I = [0, 1]`, the infected
count at `t = 0` is exactly `0`, yet `R[0]` is computed as `+∞` — an
unmarked infinity, not the missing-value marker `NaN`. -/
theorem computeR_zero_I_gives_inf :
    (computeR [0, 5] [0, 1]).getD 0 nan = pinf ∧ pinf ≠ nan :=
  ⟨computeR_cex_eval, fun h => PFloat.noConfusion h⟩

/-- C8: for every case series of length `N` and infected series of the same
length, the `R` series has length `N` and its final entry is the explicit
missing-value marker `NaN` (not silently dropped, not a number). -/
theorem computeR_last_undefined (ar_cases ar_I : List ℝ)
    (hlen : ar_I.length = ar_cases.length) :
    (computeR ar_cases ar_I).length = ar_cases.length ∧
      (0 < ar_cases.length →
        (computeR ar_cases ar_I).getD (ar_cases.length - 1) (val 0) = nan) := by
  refine ⟨computeR_length ar_cases ar_I hlen, fun hN => ?_⟩
  have ht0 : ar_cases.length - 1 < ar_cases.length := by omega
  rw [computeR_getD_eq ar_cases ar_I _ (val 0) hlen ht0]
  have hne : (ar_cases.map val) ≠ [] := by
    intro h
    rw [← List.length_eq_zero] at h
    rw [List.length_map] at h
    omega
  have hlast : (shiftm1 (ar_cases.map val)).getD ((ar_cases.map val).length - 1) nan = nan :=
    shiftm1_getD_last _ _ hne
  rw [List.length_map] at hlast
  rw [hlast, pdiv_nan_left, pmul_nan_left]

theorem computeR_last_undefined_witness :
    (computeR [1, 2] [3, 4]).length = 2 ∧
      (0 < List.length [(1 : ℝ), 2] →
        (computeR [1, 2] [3, 4]).getD (List.length [(1 : ℝ), 2] - 1) (val 0) = nan) := by
  have h := computeR_last_undefined [1, 2] [3, 4] (by norm_num)
  simpa using h

/-! ## The convolution estimator `compute_I` -/

/-- `np.dot` on 1-D arrays: defined only when the lengths agree
(numpy raises `ValueError` otherwise, modelled by `none`). -/
def npdot (a b : List ℝ) : Option ℝ :=
  if a.length = b.length then some (List.zipWith (fun x y => x * y) a b).sum else none

/-- The numpy slice `l[t::-1]`: the entries at indices `min t (len - 1), ..., 1, 0`,
i.e. the reverse of the first `t + 1` entries. -/
def numpy_slice_rev (l : List ℝ) (t : ℕ) : List ℝ := (l.take (t + 1)).reverse

/-- The 1000-day survival lookup table of `compute_I`:
`prob_values = np.array([prob_still_infected(t, ...) for t in np.arange(1000)])`. -/
def prob_values (kr θr kd θd dl : ℝ) : List ℝ :=
  (List.range 1000).map fun t : ℕ => prob_still_infected (↑t) kr θr kd θd dl

/-- A Python `for t in range(n)` loop collecting one value per iteration; an
exception raised at any iteration aborts the whole computation (`none`). -/
def for_collect (f : ℕ → Option ℝ) : ℕ → Option (List ℝ)
  | 0 => some []
  | n + 1 =>
    match for_collect f n, f n with
    | some l, some x => some (l ++ [x])
    | _, _ => none

/-- `compute_I` from `parse_data.py`: for each day `t` of the case series,
`I[t] = np.dot(ar_cases[:t+1], prob_values[t::-1])`. -/
def compute_I (ar_cases : List ℝ) (kr θr kd θd dl : ℝ) : Option (List ℝ) :=
  for_collect
    (fun t => npdot (ar_cases.take (t + 1)) (numpy_slice_rev (prob_values kr θr kd θd dl) t))
    ar_cases.length

lemma for_collect_eq_map (f : ℕ → Option ℝ) (g : ℕ → ℝ) :
    ∀ n, (∀ t, t < n → f t = some (g t)) → for_collect f n = some ((List.range n).map g)
  | 0, _ => by simp [for_collect]
  | n + 1, h => by
    have ih := for_collect_eq_map f g n (fun t ht => h t (by omega))
    simp [for_collect, ih, h n (by omega), List.range_succ]

lemma for_collect_none (f : ℕ → Option ℝ) (t : ℕ) (hf : f t = none) :
    ∀ n, t < n → for_collect f n = none
  | n + 1, h => by
    rcases Nat.lt_succ_iff_lt_or_eq.mp h with h' | h'
    · have ih := for_collect_none f t hf n h'
      unfold for_collect
      rw [ih]
    · subst h'
      unfold for_collect
      rw [hf]
      cases for_collect f t <;> rfl

lemma prob_values_length (kr θr kd θd dl : ℝ) :
    (prob_values kr θr kd θd dl).length = 1000 := by
  unfold prob_values
  rw [List.length_map, List.length_range]

lemma prob_values_getD (kr θr kd θd dl : ℝ) (j : ℕ) (hj : j < 1000) :
    (prob_values kr θr kd θd dl).getD j 0 = prob_still_infected (↑j) kr θr kd θd dl := by
  have hj' : j < (prob_values kr θr kd θd dl).length := by
    rw [prob_values_length]; exact hj
  rw [List.getD_eq_getElem _ _ hj']
  unfold prob_values
  rw [List.getElem_map, List.getElem_range]

lemma sum_zipWith_mul :
    ∀ (A B : List ℝ), (List.zipWith (fun x y => x * y) A B).sum =
      ∑ s ∈ Finset.range (min A.length B.length), A.getD s 0 * B.getD s 0
  | [], B => by simp
  | a :: A, [] => by simp
  | a :: A, b :: B => by
    have ih := sum_zipWith_mul A B
    simp only [List.zipWith_cons_cons, List.sum_cons, ih, List.length_cons,
      Nat.succ_min_succ, Finset.sum_range_succ', List.getD_cons_succ, List.getD_cons_zero]
    ring

lemma npdot_conv (ar_cases : List ℝ) (kr θr kd θd dl : ℝ) (t : ℕ)
    (ht : t < ar_cases.length) (ht2 : t < 1000) :
    npdot (ar_cases.take (t + 1)) (numpy_slice_rev (prob_values kr θr kd θd dl) t) =
      some (∑ s ∈ Finset.range (t + 1),
        ar_cases.getD s 0 * prob_still_infected (↑(t - s)) kr θr kd θd dl) := by
  have lenpv := prob_values_length kr θr kd θd dl
  have lenA : (ar_cases.take (t + 1)).length = t + 1 := by
    rw [List.length_take]; omega
  have lenB : (numpy_slice_rev (prob_values kr θr kd θd dl) t).length = t + 1 := by
    unfold numpy_slice_rev
    rw [List.length_reverse, List.length_take, lenpv]; omega
  unfold npdot
  rw [if_pos (by rw [lenA, lenB])]
  refine congrArg some ?_
  rw [sum_zipWith_mul, lenA, lenB, min_self]
  refine Finset.sum_congr rfl fun s hs => ?_
  rw [Finset.mem_range] at hs
  have hA : (ar_cases.take (t + 1)).getD s 0 = ar_cases.getD s 0 := by
    have h1 : s < (ar_cases.take (t + 1)).length := by omega
    have h2 : s < ar_cases.length := by omega
    rw [List.getD_eq_getElem _ _ h1, List.getElem_take, List.getD_eq_getElem _ _ h2]
  have hB : (numpy_slice_rev (prob_values kr θr kd θd dl) t).getD s 0 =
      prob_still_infected (↑(t - s)) kr θr kd θd dl := by
    unfold numpy_slice_rev
    have h3 : s < ((prob_values kr θr kd θd dl).take (t + 1)).reverse.length := by
      rw [List.length_reverse, List.length_take, lenpv]; omega
    rw [List.getD_eq_getElem _ _ h3, List.getElem_reverse, List.getElem_take,
      ← List.getD_eq_getElem]
    have hidx : ((prob_values kr θr kd θd dl).take (t + 1)).length - 1 - s = t - s := by
      rw [List.length_take, lenpv]; omega
    rw [hidx, prob_values_getD kr θr kd θd dl (t - s) (by omega)]
  rw [hA, hB]

lemma compute_I_spec (ar_cases : List ℝ) (kr θr kd θd dl : ℝ)
    (h : ar_cases.length ≤ 1000) :
    compute_I ar_cases kr θr kd θd dl =
      some ((List.range ar_cases.length).map fun t =>
        ∑ s ∈ Finset.range (t + 1),
          ar_cases.getD s 0 * prob_still_infected (↑(t - s)) kr θr kd θd dl) := by
  apply for_collect_eq_map
  intro t ht
  exact npdot_conv ar_cases kr θr kd θd dl t ht (by omega)

lemma compute_I_none (ar_cases : List ℝ) (kr θr kd θd dl : ℝ)
    (h : 1000 < ar_cases.length) :
    compute_I ar_cases kr θr kd θd dl = none := by
  refine for_collect_none _ 1000 ?_ ar_cases.length h
  unfold npdot
  rw [if_neg]
  intro hcontra
  have h1 : (ar_cases.take (1000 + 1)).length = 1001 := by
    rw [List.length_take]; omega
  have h2 : (numpy_slice_rev (prob_values kr θr kd θd dl) 1000).length = 1000 := by
    unfold numpy_slice_rev
    rw [List.length_reverse, List.length_take, prob_values_length]
    omega
  rw [h1, h2] at hcontra
  omega

/-! ## Claims about `compute_I` -/

/-- C1 (amended): for every case series of length at most 1000 (the fixed
horizon of the precomputed survival table) with non-negative entries, and
valid gamma/delta parameters, `compute_I` returns a series of the same
length in which `I[t] = Σ_{s=0}^{t} cases[s] * S[t-s]`, with `S` the
survival probability `prob_still_infected`. -/
theorem compute_I_convolution (ar_cases : List ℝ) (kr θr kd θd dl : ℝ)
    (hlen : ar_cases.length ≤ 1000) (hnn : ∀ x ∈ ar_cases, 0 ≤ x)
    (hkr : 0 < kr) (hθr : 0 < θr) (hkd : 0 < kd) (hθd : 0 < θd)
    (hd0 : 0 ≤ dl) (hd1 : dl ≤ 1) :
    ∃ I, compute_I ar_cases kr θr kd θd dl = some I ∧ I.length = ar_cases.length ∧
      ∀ t, t < ar_cases.length →
        I.getD t 0 = ∑ s ∈ Finset.range (t + 1),
          ar_cases.getD s 0 * prob_still_infected (↑(t - s)) kr θr kd θd dl := by
  refine ⟨_, compute_I_spec ar_cases kr θr kd θd dl hlen, by simp, ?_⟩
  intro t ht
  have ht' : t < ((List.range ar_cases.length).map fun t =>
      ∑ s ∈ Finset.range (t + 1),
        ar_cases.getD s 0 * prob_still_infected (↑(t - s)) kr θr kd θd dl).length := by
    rw [List.length_map, List.length_range]; exact ht
  rw [List.getD_eq_getElem _ _ ht', List.getElem_map, List.getElem_range]

theorem compute_I_convolution_witness :
    ∃ I, compute_I [1, 0] k_r theta_r k_d theta_d delta = some I ∧
        I.length = List.length [(1 : ℝ), 0] ∧
      ∀ t, t < List.length [(1 : ℝ), 0] →
        I.getD t 0 = ∑ s ∈ Finset.range (t + 1),
          List.getD [(1 : ℝ), 0] s 0 * prob_still_infected (↑(t - s)) k_r theta_r k_d theta_d
            delta :=
  compute_I_convolution [1, 0] k_r theta_r k_d theta_d delta (by norm_num)
    (by intro x hx; simp at hx; rcases hx with rfl | rfl <;> norm_num)
    (by norm_num [k_r, cv_r]) (by norm_num [theta_r, k_r, cv_r, mean_r])
    (by norm_num [k_d, cv_d]) (by norm_num [theta_d, k_d, cv_d, mean_d])
    (by norm_num [delta]) (by norm_num [delta])

/-- C1 counterexample: for a case series longer than the 1000-day horizon
the claim fails — `compute_I` does not return a series at all (the day-1000
dot product pairs slices of mismatched lengths 1001 and 1000, and numpy
raises), here shown on the all-zero series of length 1001 with the
program's own parameters. -/
theorem compute_I_fails_beyond_horizon :
    compute_I (List.replicate 1001 0) k_r theta_r k_d theta_d delta = none :=
  compute_I_none _ _ _ _ _ _ (by rw [List.length_replicate]; omega)

/-- C2: for every case series with all values `≥ 0` and every parameter set
with `delta ∈ [0,1]` and positive shapes/scales, every entry of the series
returned by `compute_I` is `≥ 0`. -/
theorem compute_I_nonneg (ar_cases : List ℝ) (kr θr kd θd dl : ℝ)
    (hnn : ∀ x ∈ ar_cases, 0 ≤ x)
    (hkr : 0 < kr) (hθr : 0 < θr) (hkd : 0 < kd) (hθd : 0 < θd)
    (hd0 : 0 ≤ dl) (hd1 : dl ≤ 1)
    (I : List ℝ) (hI : compute_I ar_cases kr θr kd θd dl = some I) :
    ∀ x ∈ I, 0 ≤ x := by
  have hlen : ar_cases.length ≤ 1000 := by
    by_contra h
    rw [compute_I_none ar_cases kr θr kd θd dl (by omega)] at hI
    exact Option.noConfusion hI
  rw [compute_I_spec ar_cases kr θr kd θd dl hlen] at hI
  obtain rfl : ((List.range ar_cases.length).map fun t =>
      ∑ s ∈ Finset.range (t + 1),
        ar_cases.getD s 0 * prob_still_infected (↑(t - s)) kr θr kd θd dl) = I :=
    Option.some.inj hI
  intro x hx
  rw [List.mem_map] at hx
  obtain ⟨t, _, rfl⟩ := hx
  refine Finset.sum_nonneg fun s _ => ?_
  refine mul_nonneg ?_ (prob_still_infected_nonneg _ _ _ _ _ _ hd0 hd1)
  by_cases hsl : s < ar_cases.length
  · rw [List.getD_eq_getElem _ _ hsl]
    exact hnn _ (List.getElem_mem hsl)
  · rw [List.getD_eq_default _ _ (by omega)]

theorem compute_I_nonneg_witness :
    0 ≤ ∑ s ∈ Finset.range (0 + 1),
      List.getD [(1 : ℝ), 0] s 0 * prob_still_infected (↑(0 - s)) k_r theta_r k_d theta_d
        delta :=
  compute_I_nonneg [1, 0] k_r theta_r k_d theta_d delta
    (by intro x hx; simp at hx; rcases hx with rfl | rfl <;> norm_num)
    (by norm_num [k_r, cv_r]) (by norm_num [theta_r, k_r, cv_r, mean_r])
    (by norm_num [k_d, cv_d]) (by norm_num [theta_d, k_d, cv_d, mean_d])
    (by norm_num [delta]) (by norm_num [delta]) _
    (compute_I_spec [1, 0] k_r theta_r k_d theta_d delta (by norm_num)) _
    (List.mem_map.mpr ⟨0, by simp, rfl⟩)

/-- C3: for every case series with all values `≥ 0` and every valid
parameter set, each entry of the output of `compute_I` satisfies
`I[t] ≤ Σ_{s ≤ t} cases[s]`. -/
theorem compute_I_conservation (ar_cases : List ℝ) (kr θr kd θd dl : ℝ)
    (hnn : ∀ x ∈ ar_cases, 0 ≤ x)
    (hkr : 0 < kr) (hθr : 0 < θr) (hkd : 0 < kd) (hθd : 0 < θd)
    (hd0 : 0 ≤ dl) (hd1 : dl ≤ 1)
    (I : List ℝ) (hI : compute_I ar_cases kr θr kd θd dl = some I) :
    ∀ t, t < I.length →
      I.getD t 0 ≤ ∑ s ∈ Finset.range (t + 1), ar_cases.getD s 0 := by
  have hlen : ar_cases.length ≤ 1000 := by
    by_contra h
    rw [compute_I_none ar_cases kr θr kd θd dl (by omega)] at hI
    exact Option.noConfusion hI
  rw [compute_I_spec ar_cases kr θr kd θd dl hlen] at hI
  obtain rfl : ((List.range ar_cases.length).map fun t =>
      ∑ s ∈ Finset.range (t + 1),
        ar_cases.getD s 0 * prob_still_infected (↑(t - s)) kr θr kd θd dl) = I :=
    Option.some.inj hI
  intro t ht
  rw [List.length_map, List.length_range] at ht
  have ht' : t < ((List.range ar_cases.length).map fun t =>
      ∑ s ∈ Finset.range (t + 1),
        ar_cases.getD s 0 * prob_still_infected (↑(t - s)) kr θr kd θd dl).length := by
    rw [List.length_map, List.length_range]; exact ht
  rw [List.getD_eq_getElem _ _ ht', List.getElem_map, List.getElem_range]
  refine Finset.sum_le_sum fun s _ => ?_
  have hc : 0 ≤ ar_cases.getD s 0 := by
    by_cases hsl : s < ar_cases.length
    · rw [List.getD_eq_getElem _ _ hsl]
      exact hnn _ (List.getElem_mem hsl)
    · rw [List.getD_eq_default _ _ (by omega)]
  exact mul_le_of_le_one_right hc (prob_still_infected_le_one _ _ _ _ _ _ hd0 hd1)

theorem compute_I_conservation_witness :
    ((List.range (List.length [(1 : ℝ), 0])).map fun t =>
        ∑ s ∈ Finset.range (t + 1),
          List.getD [(1 : ℝ), 0] s 0 * prob_still_infected (↑(t - s)) k_r theta_r k_d theta_d
            delta).getD 0 0 ≤ ∑ s ∈ Finset.range (0 + 1), List.getD [(1 : ℝ), 0] s 0 :=
  compute_I_conservation [1, 0] k_r theta_r k_d theta_d delta
    (by intro x hx; simp at hx; rcases hx with rfl | rfl <;> norm_num)
    (by norm_num [k_r, cv_r]) (by norm_num [theta_r, k_r, cv_r, mean_r])
    (by norm_num [k_d, cv_d]) (by norm_num [theta_d, k_d, cv_d, mean_d])
    (by norm_num [delta]) (by norm_num [delta]) _
    (compute_I_spec [1, 0] k_r theta_r k_d theta_d delta (by norm_num)) 0
    (by rw [List.length_map, List.length_range]; norm_num)

/-- C10: `compute_I` is total exactly up to the fixed 1000-day horizon of
the precomputed survival table: every series of length at most 1000 yields
a full same-length result, while any longer series makes the day-1000 dot
product pair slices of mismatched lengths, so the computation fails. -/
theorem compute_I_horizon (ar_cases : List ℝ) (kr θr kd θd dl : ℝ) :
    (ar_cases.length ≤ 1000 →
      ∃ I, compute_I ar_cases kr θr kd θd dl = some I ∧ I.length = ar_cases.length) ∧
    (1000 < ar_cases.length → compute_I ar_cases kr θr kd θd dl = none) :=
  ⟨fun h => ⟨_, compute_I_spec ar_cases kr θr kd θd dl h, by simp⟩,
   fun h => compute_I_none ar_cases kr θr kd θd dl h⟩

theorem compute_I_horizon_witness :
    (∃ I, compute_I (List.replicate 5 1) k_r theta_r k_d theta_d delta = some I ∧
        I.length = (List.replicate 5 (1 : ℝ)).length) ∧
      compute_I (List.replicate 1002 1) k_r theta_r k_d theta_d delta = none :=
  ⟨(compute_I_horizon (List.replicate 5 1) k_r theta_r k_d theta_d delta).1
      (by rw [List.length_replicate]; omega),
   (compute_I_horizon (List.replicate 1002 1) k_r theta_r k_d theta_d delta).2
      (by rw [List.length_replicate]; omega)⟩

/-! ## Configuration validation (C9) -/

open ProbabilityTheory in
lemma gammaCDFReal_shape_one (y : ℝ) (hy : 0 ≤ y) :
    gammaCDFReal 1 1 y = 1 - Real.exp (-y) := by
  have h1 : gammaCDFReal 1 1 y = exponentialCDFReal 1 y := rfl
  rw [h1, exponentialCDFReal_eq one_pos, if_pos hy, one_mul]

lemma cdf_gamma_shape_one (x θ : ℝ) (h : 0 ≤ x / θ) :
    cdf_gamma x 1 θ = 1 - Real.exp (-(x / θ)) := by
  unfold cdf_gamma gammainc
  exact gammaCDFReal_shape_one (x / θ) h

/-- C9 counterexample: the computation performs no parameter validation and
does not fail fast.  With the invalid configuration `delta = 2` (outside
`[0,1]`) and gamma parameters `k_r = 1, theta_r = 100, k_d = 1, theta_d = 1`,
`prob_still_infected` at `T = 10` silently proceeds and returns the
out-of-range value `2·e⁻¹⁰ − e^(−1/10) < 0` instead of raising an error. -/
theorem invalid_delta_not_rejected :
    prob_still_infected 10 1 100 1 1 2 < 0 ∧ ¬((2 : ℝ) ≤ 1) := by
  refine ⟨?_, by norm_num⟩
  have h1 : cdf_gamma 10 1 100 = 1 - Real.exp (-(10 / 100)) :=
    cdf_gamma_shape_one 10 100 (by norm_num)
  have h2 : cdf_gamma 10 1 1 = 1 - Real.exp (-(10 / 1)) :=
    cdf_gamma_shape_one 10 1 (by norm_num)
  unfold prob_still_infected
  rw [h1, h2]
  have he : Real.exp (-(10 / 100) : ℝ) = Real.exp (-(10 / 1) : ℝ) * Real.exp 9.9 := by
    rw [← Real.exp_add]; norm_num
  have hb : (9.9 : ℝ) + 1 ≤ Real.exp 9.9 := Real.add_one_le_exp 9.9
  have hp : 0 < Real.exp (-(10 / 1) : ℝ) := Real.exp_pos _
  nlinarith

/-- C9 (amended): the program has no configuration input to validate — the
five parameters are hard-coded module constants, which do satisfy the
validity constraints (`delta ∈ [0,1]`, positive shapes and scales); no
validation or clamping code exists, and the computation functions accept
invalid parameter values without error. -/
theorem config_constants_valid :
    0 ≤ delta ∧ delta ≤ 1 ∧ 0 < k_r ∧ 0 < theta_r ∧ 0 < k_d ∧ 0 < theta_d := by
  refine ⟨?_, ?_, ?_, ?_, ?_, ?_⟩ <;>
    norm_num [delta, k_r, cv_r, theta_r, mean_r, k_d, cv_d, theta_d, mean_d]

end DashCovid

end
